import Mathlib

/-!
Verification of the `estr` crate: a process-wide immutable string interner.

The development shallowly embeds the three core components:
* the global sharded string cache and the `Estr` handle API (`src/lib.rs`,
  with the shard internals of `stringcache.rs` modelled from the spec,
  since that module is not present under `src/`);
* the downward bump allocator `LeakyBumpAlloc` (`src/bumpalloc.rs`);
* the `IdentityHasher` used by downstream collections (`src/collections.rs`).

Machine integers (`usize`, `u64`) are modelled as `Nat`, with wrap-around or
masking written explicitly where the source relies on it.
-/

/-- The number of values of a 64-bit machine word (`usize`/`u64` on the
64-bit targets the crate supports). -/
def USIZE : Nat := 2 ^ 64

/-- `isize::MAX` on a 64-bit target, the size bound checked by
`Layout::from_size_align`. -/
def ISIZE_MAX : Nat := 2 ^ 63 - 1

/-- `usize::is_power_of_two`, used by `Layout::from_size_align`: on a 64-bit
target a usize is a power of two exactly when it equals `2^k` for some
`k < 64`. -/
def isPow2 (n : Nat) : Bool := (List.range 64).any (fun k => n == 2 ^ k)

/-- Modelled from the spec: `digest` (src/lib.rs lines 396-403) delegates to
the external `rapidhash` crate, whose implementation is not part of this
repository.  The spec (section 4.4) requires only a fixed, deterministic,
seeded, non-cryptographic 64-bit hash of the text; it is modelled here as a
seeded FNV-style multiplicative fold over the characters, reduced mod 2^64. -/
def digest (s : String) : Nat :=
  s.data.foldl (fun h c => ((h ^^^ c.toNat) * 1099511628211) % USIZE) 14695981039346656037

/-- Modelled from the spec: `NUM_BINS` is declared in `stringcache.rs`, which
is not under `src/`.  The spec (section 3, 4.3) fixes it as a build-time
power of two, suggesting 32 or 64; it is modelled as 64. -/
def NUM_BINS : Nat := 64

/-- Modelled from the spec: `TOP_SHIFT` is declared in `stringcache.rs`,
which is not under `src/`.  The spec (section 4.3) uses the top
`k = log2 NUM_BINS` bits, so the shift is `64 - log2 64 = 58`. -/
def TOP_SHIFT : Nat := 58

/-- `whichbin` (src/lib.rs lines 479-482): select a shard from the top bits
of the hash, `(hash >> TOP_SHIFT) % NUM_BINS`. -/
def whichbin (hash : Nat) : Nat := (hash >>> TOP_SHIFT) % NUM_BINS

/-- Modelled from the spec (the `stringcache.rs` module is not under
`src/`): one published cache entry.  Per spec section 3 an entry is a header
`{len, hash}` immediately followed by the string bytes; `addr` is the
address of `bytes[0]` (the value a Handle carries) and `bin` records the
shard that owns the entry.  The payload is kept as a `String` (its UTF-8
bytes); `len` is its byte length. -/
structure Entry where
  bin : Nat
  addr : Nat
  len : Nat
  hash : Nat
  str : String
deriving DecidableEq

/-- Modelled from the spec: the global registry of `NUM_BINS` shards
(`STRING_CACHE` in src/lib.rs lines 475-476, shard internals from spec
section 4.2).  The shards' lookup tables and arena stacks are modelled
together as one list of published entries tagged with their bin (newest
first), and arena placement is abstracted to a globally fresh address per
entry: arenas of distinct shards are disjoint, and entries are never moved
or freed (spec invariants I3 and I4). -/
structure StringCache where
  entries : List Entry
  nextAddr : Nat
deriving DecidableEq

/-- A Handle (`Estr` in src/lib.rs lines 36-41): a single pointer to the
payload bytes of some entry, modelled as its address. -/
abbrev Estr := Nat

/-- Modelled from the spec (section 4.2): the lookup predicate of a shard's
table for probe string `s` with precomputed digest `h` in shard `b` — the
stored header must match `(len = |s|, hash = h)` and the bytes must equal
`s`. -/
def entryMatches (b : Nat) (s : String) (h : Nat) (e : Entry) : Bool :=
  e.bin == b && e.len == s.utf8ByteSize && e.hash == h && e.str == s

/-- Modelled from the spec (section 4.2): `StringCache::insert(s, h)`.  If a
stored entry matches, return its pointer; otherwise publish a new entry
(header plus bytes, at a fresh address) and return the new pointer. -/
def StringCache.insert (sc : StringCache) (b : Nat) (s : String) (h : Nat) :
    Estr × StringCache :=
  match sc.entries.find? (entryMatches b s h) with
  | some e => (e.addr, sc)
  | none =>
    (sc.nextAddr,
      ⟨{ bin := b, addr := sc.nextAddr, len := s.utf8ByteSize, hash := h, str := s }
          :: sc.entries,
        sc.nextAddr + 1⟩)

/-- Modelled from the spec (section 4.2): `StringCache::get_existing(s, h)`
returns the pointer of a matching stored entry, or nothing if absent; it
performs no allocation. -/
def StringCache.get_existing (sc : StringCache) (b : Nat) (s : String) (h : Nat) :
    Option Estr × StringCache :=
  ((sc.entries.find? (entryMatches b s h)).map Entry.addr, sc)

/-- `Estr::from` / the free function `estr` (src/lib.rs lines 57-65 and
451-454): hash the string, lock the shard chosen by `whichbin`, insert.  The
global static cache is passed explicitly. -/
def estr (s : String) (g : StringCache) : Estr × StringCache :=
  g.insert (whichbin (digest s)) s (digest s)

/-- `Estr::from_existing` / the free function `existing_estr` (src/lib.rs
lines 67-73 and 470-473): hash, lock the shard, look up without inserting. -/
def existing_estr (s : String) (g : StringCache) : Option Estr × StringCache :=
  g.get_existing (whichbin (digest s)) s (digest s)

/-- Dereference a handle: the entry whose payload address is `p`.  This
models following the pointer back to the entry header
(`Estr::as_string_cache_entry`, src/lib.rs lines 99-104). -/
def StringCache.entryAt (g : StringCache) (p : Estr) : Option Entry :=
  g.entries.find? (fun e => e.addr == p)

/-- `Estr::as_str` (src/lib.rs lines 86-96): view the `len` payload bytes at
the handle's address. -/
def Estr.as_str (g : StringCache) (p : Estr) : String :=
  match g.entryAt p with
  | some e => e.str
  | none => ""

/-- `Estr::len` (src/lib.rs lines 107-110): read `len` from the header. -/
def Estr.len (g : StringCache) (p : Estr) : Nat :=
  match g.entryAt p with
  | some e => e.len
  | none => 0

/-- `Estr::digest` (src/lib.rs lines 113-118): read `hash` from the header. -/
def Estr.digest (g : StringCache) (p : Estr) : Nat :=
  match g.entryAt p with
  | some e => e.hash
  | none => 0

/-- `Ord for Estr` (src/lib.rs lines 138-142): compare the precomputed
digests read from the entry headers. -/
def Estr.cmp (g : StringCache) (a b : Estr) : Ordering :=
  compare (Estr.digest g a) (Estr.digest g b)

/-- `a < b` on handles, derived from `PartialOrd`/`Ord` (src/lib.rs lines
132-142): `cmp` yields `Less`. -/
def Estr.lt (g : StringCache) (a b : Estr) : Prop :=
  Estr.cmp g a b = Ordering.lt

/-- A fresh shard-set: nothing interned yet. -/
def emptyCache : StringCache := ⟨[], 0⟩

/-- Intern each string of `L` in order, starting from the fresh cache. -/
def internAll (L : List String) : StringCache :=
  L.foldl (fun g s => (estr s g).2) emptyCache

/-- Cache well-formedness: published entries occupy pairwise distinct
addresses (their arena regions are disjoint), each allocated below
`nextAddr`.  It holds for the fresh cache and is preserved by interning. -/
def WF (g : StringCache) : Prop :=
  (∀ e ∈ g.entries, e.addr < g.nextAddr) ∧
    g.entries.Pairwise (fun a b => a.addr ≠ b.addr)

/-- The two process-terminating outcomes in `src/bumpalloc.rs`: a Rust
panic (with its message) or a hard process abort via `libabort::abort()`. -/
inductive Termination where
  | panic (msg : String)
  | abort
deriving DecidableEq

deriving instance DecidableEq for Except

/-- The arena (`LeakyBumpAlloc`, src/bumpalloc.rs lines 12-17): the layout's
size and alignment, the region bounds, and the downward-bumping cursor.
Addresses are modelled as `Nat`. -/
structure LeakyBumpAlloc where
  size : Nat
  align : Nat
  start : Nat
  end_ : Nat
  ptr : Nat
deriving DecidableEq

/-- `LeakyBumpAlloc::new` (src/bumpalloc.rs lines 20-35).  `sysPtr` is the
address handed back by the system allocator (`0` models a null return).
`Layout::from_size_align(..).unwrap()` panics on an invalid layout, and the
null check is `panic!("oom")`; the constructor never aborts.  On success the
cursor starts at the end of the region. -/
def LeakyBumpAlloc.new (capacity alignment sysPtr : Nat) :
    Except Termination LeakyBumpAlloc :=
  if isPow2 alignment = false ∨ ISIZE_MAX - (alignment - 1) < capacity then
    Except.error (Termination.panic ("invalid layout"))
  else if sysPtr = 0 then
    Except.error (Termination.panic ("oom"))
  else
    Except.ok
      { size := capacity, align := alignment, start := sysPtr,
        end_ := sysPtr + capacity, ptr := sysPtr + capacity }

/-- `LeakyBumpAlloc::allocate` (src/bumpalloc.rs lines 38-55): subtract
`numBytes` from the cursor (`checked_sub(..).expect(..)` — underflow is a
panic), round down to the alignment with the mask `!(align - 1)` (the usize
complement, i.e. `2^64 - align`), and abort the process when the aligned
cursor falls below the arena start.  On success the new cursor is published
and returned. -/
def LeakyBumpAlloc.allocate (a : LeakyBumpAlloc) (numBytes : Nat) :
    Except Termination (Nat × LeakyBumpAlloc) :=
  if a.ptr < numBytes then
    Except.error (Termination.panic ("ptr sub overflowed"))
  else if (a.ptr - numBytes) &&& (USIZE - a.align) < a.start then
    Except.error Termination.abort
  else
    Except.ok ((a.ptr - numBytes) &&& (USIZE - a.align),
      { a with ptr := (a.ptr - numBytes) &&& (USIZE - a.align) })

/-- `LeakyBumpAlloc::allocated` (src/bumpalloc.rs lines 57-59). -/
def LeakyBumpAlloc.allocated (a : LeakyBumpAlloc) : Nat := a.end_ - a.ptr

/-- `LeakyBumpAlloc::capacity` (src/bumpalloc.rs lines 61-63). -/
def LeakyBumpAlloc.capacity (a : LeakyBumpAlloc) : Nat := a.size

/-- Arena invariant: the alignment is a power of two representable in a
usize, the region is `[start, start + size)`, and the cursor lies between
start and end. -/
@[reducible] def LeakyBumpAlloc.Inv (a : LeakyBumpAlloc) : Prop :=
  isPow2 a.align = true ∧ a.end_ = a.start + a.size ∧
    a.start ≤ a.ptr ∧ a.ptr ≤ a.end_

/-- `IdentityHasher` (src/collections.rs lines 16-21): the stored 64-bit
state. -/
structure IdentityHasher where
  hash : Nat
deriving DecidableEq

/-- `Default for IdentityHasher`: a zero state. -/
def IdentityHasher.default : IdentityHasher := ⟨0⟩

/-- `NativeEndian::read_u64` on the crate's little-endian targets: the eight
bytes, least significant first. -/
def readU64 (bytes : List Nat) : Nat :=
  bytes.foldr (fun b acc => acc * 256 + b) 0

/-- `Hasher::write` for `IdentityHasher` (src/collections.rs lines 24-29):
overwrite the state with the native-endian u64 exactly when the slice is 8
bytes long; otherwise leave it unchanged. -/
def IdentityHasher.write (h : IdentityHasher) (bytes : List Nat) : IdentityHasher :=
  if bytes.length = 8 then { hash := readU64 bytes } else h

/-- `Hasher::finish` (src/collections.rs lines 31-34). -/
def IdentityHasher.finish (h : IdentityHasher) : Nat := h.hash

/-! ## Helper lemmas -/

theorem isPow2_spec {n : Nat} (h : isPow2 n = true) : ∃ k, k < 64 ∧ n = 2 ^ k := by
  unfold isPow2 at h
  simpa using h

theorem two_pow_dvd_and_mask {k : Nat} (hk : k ≤ 64) (x : Nat) :
    2 ^ k ∣ x &&& (USIZE - 2 ^ k) := by
  have hdvd : 2 ^ k ∣ USIZE - 2 ^ k := Nat.dvd_sub' (pow_dvd_pow 2 hk) dvd_rfl
  obtain ⟨c, hc⟩ := hdvd
  apply Nat.dvd_of_mod_eq_zero
  rw [← Nat.and_pow_two_sub_one_eq_mod, Nat.and_assoc, Nat.and_pow_two_sub_one_eq_mod,
    hc, Nat.mul_mod_right, Nat.and_zero]

theorem entryAt_of_mem {g : StringCache} (hWF : WF g) {e : Entry}
    (he : e ∈ g.entries) : g.entryAt e.addr = some e := by
  have hs : (g.entries.find? (fun x => x.addr == e.addr)).isSome :=
    List.find?_isSome.mpr ⟨e, he, by simp⟩
  obtain ⟨e', he'⟩ := Option.isSome_iff_exists.mp hs
  have hmem := List.mem_of_find?_eq_some he'
  have haddr : e'.addr = e.addr := by simpa using List.find?_some he'
  have heq : e' = e := by
    by_contra hne
    exact List.Pairwise.forall (fun _ _ h => Ne.symm h) hWF.2 hmem he hne haddr
  rw [StringCache.entryAt, he', heq]

theorem estr_spec (s : String) (g : StringCache) :
    ∃ e, e ∈ (estr s g).2.entries ∧ (estr s g).1 = e.addr ∧
      e.str = s ∧ e.len = s.utf8ByteSize ∧ e.hash = digest s ∧
      e.bin = whichbin (digest s) ∧
      (estr s g).2.entries.find? (entryMatches (whichbin (digest s)) s (digest s))
        = some e := by
  unfold estr StringCache.insert
  cases hfind : g.entries.find? (entryMatches (whichbin (digest s)) s (digest s)) with
  | some e =>
    have hmem := List.mem_of_find?_eq_some hfind
    have hprop := List.find?_some hfind
    simp only [entryMatches, Bool.and_eq_true, beq_iff_eq] at hprop
    exact ⟨e, by simp [hfind, hmem, hprop.1.1.1, hprop.1.1.2, hprop.1.2, hprop.2]⟩
  | none =>
    refine ⟨{ bin := whichbin (digest s), addr := g.nextAddr, len := s.utf8ByteSize,
              hash := digest s, str := s }, ?_⟩
    simp [hfind, entryMatches]

theorem mem_estr_of_mem {g : StringCache} {e : Entry} (he : e ∈ g.entries)
    (s : String) : e ∈ (estr s g).2.entries := by
  unfold estr StringCache.insert
  cases hfind : g.entries.find? (entryMatches (whichbin (digest s)) s (digest s)) with
  | some e' => simpa [hfind] using he
  | none => simp [hfind, he]

theorem mem_estr_inv {s : String} {g : StringCache} {e : Entry}
    (h : e ∈ (estr s g).2.entries) : e ∈ g.entries ∨ e.str = s := by
  unfold estr StringCache.insert at h
  cases hfind : g.entries.find? (entryMatches (whichbin (digest s)) s (digest s)) with
  | some e' =>
    rw [hfind] at h
    exact Or.inl (by simpa using h)
  | none =>
    rw [hfind] at h
    simp only [List.mem_cons] at h
    rcases h with he | hmem
    · exact Or.inr (by rw [he])
    · exact Or.inl hmem

theorem WF_estr {g : StringCache} (hWF : WF g) (s : String) : WF (estr s g).2 := by
  unfold estr StringCache.insert
  cases hfind : g.entries.find? (entryMatches (whichbin (digest s)) s (digest s)) with
  | some e => simpa [hfind] using hWF
  | none =>
    simp only [hfind]
    constructor
    · intro e he
      rcases List.mem_cons.mp he with rfl | hmem
      · exact Nat.lt_succ_self _
      · exact Nat.lt_succ_of_lt (hWF.1 e hmem)
    · refine List.Pairwise.cons ?_ hWF.2
      intro e' he'
      exact Ne.symm (Nat.ne_of_lt (hWF.1 e' he'))

theorem WF_addr_inj {g : StringCache} (hWF : WF g) {e1 e2 : Entry}
    (h1 : e1 ∈ g.entries) (h2 : e2 ∈ g.entries) (haddr : e1.addr = e2.addr) :
    e1 = e2 := by
  by_contra hne
  exact List.Pairwise.forall (fun _ _ h => Ne.symm h) hWF.2 h1 h2 hne haddr

theorem mem_foldl_estr {L : List String} {g : StringCache} {e : Entry}
    (h : e ∈ (L.foldl (fun g s => (estr s g).2) g).entries) :
    e ∈ g.entries ∨ e.str ∈ L := by
  induction L generalizing g with
  | nil => exact Or.inl h
  | cons s L ih =>
    rw [List.foldl_cons] at h
    rcases ih h with hg | hL
    · rcases mem_estr_inv hg with hmem | hstr
      · exact Or.inl hmem
      · exact Or.inr (by rw [hstr]; exact List.mem_cons_self s L)
    · exact Or.inr (List.mem_cons_of_mem s hL)

theorem insert_of_find {g : StringCache} {b : Nat} {s : String} {h : Nat} {e : Entry}
    (hfind : g.entries.find? (entryMatches b s h) = some e) :
    g.insert b s h = (e.addr, g) := by
  unfold StringCache.insert
  rw [hfind]

theorem WF_empty : WF emptyCache :=
  ⟨fun e he => absurd he (List.not_mem_nil e), List.Pairwise.nil⟩

/-! ## Claims -/

/-- Claim C1: for every pair of strings `x` and `y`, interned one after the
other in any well-formed cache state, the handles returned by `intern`
(`Estr::from`) are equal exactly when `x` and `y` have equal bytes; with
`y = x` this gives referential identity of repeated interning. -/
theorem C1_intern_identity (g : StringCache) (hWF : WF g) (x y : String) :
    ((estr x g).1 = (estr y (estr x g).2).1 ↔ x = y) := by
  obtain ⟨ex, hxmem, hx1, hxstr, _, _, _, hxfind⟩ := estr_spec x g
  constructor
  · intro heq
    obtain ⟨ey, hymem, hy1, hystr, _, _, _, _⟩ := estr_spec y (estr x g).2
    have hWF2 : WF (estr y (estr x g).2).2 := WF_estr (WF_estr hWF x) y
    have hxmem2 : ex ∈ (estr y (estr x g).2).2.entries := mem_estr_of_mem hxmem y
    have haddr : ex.addr = ey.addr := by rw [← hx1, ← hy1, heq]
    have hee : ex = ey := WF_addr_inj hWF2 hxmem2 hymem haddr
    rw [← hxstr, ← hystr, hee]
  · intro heq
    subst heq
    have hstep : estr x (estr x g).2 = (ex.addr, (estr x g).2) := insert_of_find hxfind
    rw [hstep, hx1]

/-- Witness for C1: the well-formedness hypothesis discharged at the fresh
cache, with the distinct strings a and b. -/
theorem C1_intern_identity_witness :
    ((estr ("a") emptyCache).1 = (estr ("b") (estr ("a") emptyCache).2).1
      ↔ ("a" : String) = ("b" : String)) :=
  C1_intern_identity emptyCache WF_empty ("a") ("b")

/-- Claim C2: for every string `x` (including the empty string) the handle
returned by `intern(x)` round-trips: `as_str` gives back `x`, `len` is the
byte length of `x`, and `digest` is `digest(x)`. -/
theorem C2_roundtrip (g : StringCache) (hWF : WF g) (x : String) :
    Estr.as_str (estr x g).2 (estr x g).1 = x ∧
    Estr.len (estr x g).2 (estr x g).1 = x.utf8ByteSize ∧
    Estr.digest (estr x g).2 (estr x g).1 = digest x := by
  obtain ⟨e, hmem, h1, hstr, hlen, hhash, _, _⟩ := estr_spec x g
  have hAt : (estr x g).2.entryAt e.addr = some e := entryAt_of_mem (WF_estr hWF x) hmem
  rw [h1]
  refine ⟨?_, ?_, ?_⟩ <;>
    simp [Estr.as_str, Estr.len, Estr.digest, hAt, hstr, hlen, hhash]

/-- Witness for C2: the hypothesis discharged at the fresh cache, with the
empty string. -/
theorem C2_roundtrip_witness :
    Estr.as_str (estr ("") emptyCache).2 (estr ("") emptyCache).1 = "" ∧
    Estr.len (estr ("") emptyCache).2 (estr ("") emptyCache).1 =
      String.utf8ByteSize ("") ∧
    Estr.digest (estr ("") emptyCache).2 (estr ("") emptyCache).1 = digest ("") :=
  C2_roundtrip emptyCache WF_empty ("")

/-- Claim C3: a string `x` never interned (here: not among the strings `L`
interned into a fresh shard-set) gives `intern_if_present(x) = None`; and
right after `intern(x)` in any state, `intern_if_present(x)` returns `Some`
of exactly the handle `intern(x)` returned. -/
theorem C3_existing (L : List String) (x : String) (g : StringCache) :
    (x ∉ L → (existing_estr x (internAll L)).1 = none) ∧
    (existing_estr x (estr x g).2).1 = some (estr x g).1 := by
  constructor
  · intro hnot
    simp only [existing_estr, StringCache.get_existing, Option.map_eq_none']
    rw [List.find?_eq_none]
    intro e he hpred
    simp only [entryMatches, Bool.and_eq_true, beq_iff_eq] at hpred
    have he' : e ∈ (L.foldl (fun g s => (estr s g).2) emptyCache).entries := he
    rcases mem_foldl_estr he' with hviol | hL
    · exact absurd hviol (List.not_mem_nil e)
    · rw [hpred.2] at hL
      exact hnot hL
  · obtain ⟨e, _, h1, _, _, _, _, hfind⟩ := estr_spec x g
    simp only [existing_estr, StringCache.get_existing]
    rw [hfind, h1]
    rfl

/-- Witness for C3: the never-interned hypothesis discharged for the string
b against a fresh shard-set holding only a. -/
theorem C3_existing_witness :
    (existing_estr ("b") (internAll [("a")])).1 = none ∧
    (existing_estr ("b") (estr ("b") emptyCache).2).1
      = some (estr ("b") emptyCache).1 :=
  ⟨(C3_existing [("a")] ("b") emptyCache).1 (by decide),
    (C3_existing [("a")] ("b") emptyCache).2⟩

theorem allocate_ok_facts {a : LeakyBumpAlloc} {n p : Nat} {a2 : LeakyBumpAlloc}
    (hInv : a.Inv) (h : a.allocate n = Except.ok (p, a2)) :
    a.align ∣ p ∧ a.start ≤ p ∧ p + n ≤ a.ptr ∧ a2 = { a with ptr := p } := by
  unfold LeakyBumpAlloc.allocate at h
  split at h
  · exact absurd h (by simp)
  · rename_i hnlt
    split at h
    · exact absurd h (by simp)
    · rename_i hnlt2
      simp only [Except.ok.injEq, Prod.mk.injEq] at h
      obtain ⟨hp, ha2⟩ := h
      have hle : n ≤ a.ptr := Nat.not_lt.mp hnlt
      have hstart : a.start ≤ p := by rw [← hp]; exact Nat.not_lt.mp hnlt2
      have hp' : p ≤ a.ptr - n := by rw [← hp]; exact Nat.and_le_left
      obtain ⟨k, hk64, hkeq⟩ := isPow2_spec hInv.1
      have hdvd : a.align ∣ p := by
        rw [← hp, hkeq]
        exact two_pow_dvd_and_mask (Nat.le_of_lt hk64) (a.ptr - n)
      exact ⟨hdvd, hstart, by omega, by rw [← ha2, hp]⟩

theorem foldl_write_of_no8 {writes : List (List Nat)}
    (hall : ∀ b ∈ writes, b.length ≠ 8) (h : IdentityHasher) :
    writes.foldl IdentityHasher.write h = h := by
  induction writes generalizing h with
  | nil => rfl
  | cons w ws ih =>
    rw [List.foldl_cons]
    have hw : w.length ≠ 8 := hall w (List.mem_cons_self w ws)
    rw [show IdentityHasher.write h w = h by simp [IdentityHasher.write, hw]]
    exact ih (fun b hb => hall b (List.mem_cons_of_mem w hb)) h

/-- Claim C4 as stated is false on the code: on system-allocator failure
(`alloc` returning null) `LeakyBumpAlloc::new` terminates via
`panic!("oom")`, not via an abort.  Concretely, with the valid layout
(capacity 1024, alignment 8) and a null allocator result the constructor
panics and does not abort. -/
theorem C4_counterexample :
    LeakyBumpAlloc.new 1024 8 0 = Except.error (Termination.panic ("oom")) ∧
    LeakyBumpAlloc.new 1024 8 0 ≠ Except.error Termination.abort := by
  decide

/-- Claim C4 amended: arena creation and allocation never return a failure
value, and their error behavior is process termination — but `new` panics
(never aborts) on layout or system-allocator failure, and `allocate` panics
on cursor-subtraction underflow while it aborts exactly when the aligned
cursor falls below the arena start. -/
theorem C4_failure_modes :
    (∀ capacity alignment sysPtr : Nat,
      (∃ a, LeakyBumpAlloc.new capacity alignment sysPtr = Except.ok a) ∨
      (∃ m, LeakyBumpAlloc.new capacity alignment sysPtr
          = Except.error (Termination.panic m))) ∧
    (∀ (a : LeakyBumpAlloc) (n : Nat), a.ptr < n →
      a.allocate n = Except.error (Termination.panic ("ptr sub overflowed"))) ∧
    (∀ (a : LeakyBumpAlloc) (n : Nat), n ≤ a.ptr →
      ((a.ptr - n) &&& (USIZE - a.align) < a.start →
        a.allocate n = Except.error Termination.abort) ∧
      (a.start ≤ (a.ptr - n) &&& (USIZE - a.align) →
        ∃ p a2, a.allocate n = Except.ok (p, a2))) := by
  refine ⟨?_, ?_, ?_⟩
  · intro capacity alignment sysPtr
    unfold LeakyBumpAlloc.new
    split
    · exact Or.inr ⟨_, rfl⟩
    · split
      · exact Or.inr ⟨_, rfl⟩
      · exact Or.inl ⟨_, rfl⟩
  · intro a n h
    unfold LeakyBumpAlloc.allocate
    rw [if_pos h]
  · intro a n hle
    constructor
    · intro hlt
      unfold LeakyBumpAlloc.allocate
      rw [if_neg (Nat.not_lt.mpr hle), if_pos hlt]
    · intro hge
      unfold LeakyBumpAlloc.allocate
      rw [if_neg (Nat.not_lt.mpr hle), if_neg (Nat.not_lt.mpr hge)]
      exact ⟨_, _, rfl⟩

/-- Witness for the amended C4: each failure-mode hypothesis discharged on a
concrete arena (start 64, end 128, cursor 128, alignment 8). -/
theorem C4_failure_modes_witness :
    ((∃ a, LeakyBumpAlloc.new 16 4 512 = Except.ok a) ∨
      (∃ m, LeakyBumpAlloc.new 16 4 512 = Except.error (Termination.panic m))) ∧
    LeakyBumpAlloc.allocate ⟨64, 8, 64, 128, 128⟩ 200
      = Except.error (Termination.panic ("ptr sub overflowed")) ∧
    LeakyBumpAlloc.allocate ⟨64, 8, 64, 128, 128⟩ 100
      = Except.error Termination.abort ∧
    (∃ p a2, LeakyBumpAlloc.allocate ⟨64, 8, 64, 128, 128⟩ 16
      = Except.ok (p, a2)) :=
  ⟨C4_failure_modes.1 16 4 512,
    C4_failure_modes.2.1 ⟨64, 8, 64, 128, 128⟩ 200 (by decide),
    (C4_failure_modes.2.2 ⟨64, 8, 64, 128, 128⟩ 100 (by decide)).1 (by decide),
    (C4_failure_modes.2.2 ⟨64, 8, 64, 128, 128⟩ 16 (by decide)).2 (by decide)⟩

/-- Claim C5: whenever `allocate(n)` returns normally from a well-formed
arena, the returned pointer `p` is aligned to the arena's alignment, lies at
or above the arena start, `p + n` is at or below the previous cursor (hence
inside the arena), the cursor is updated to `p`, and the new region is
disjoint from every earlier allocation's region, all of which lie at or
above the old cursor. -/
theorem C5_allocate_ok (a : LeakyBumpAlloc) (n p : Nat) (a2 : LeakyBumpAlloc)
    (hInv : a.Inv) (h : a.allocate n = Except.ok (p, a2)) :
    a.align ∣ p ∧ a.start ≤ p ∧ p + n ≤ a.ptr ∧ p + n ≤ a.end_ ∧ a2.ptr = p ∧
    (∀ q, a.ptr ≤ q → p + n ≤ q) := by
  obtain ⟨hdvd, hstart, hpn, ha2⟩ := allocate_ok_facts hInv h
  have hend : a.ptr ≤ a.end_ := hInv.2.2.2
  exact ⟨hdvd, hstart, hpn, by omega, by rw [ha2], fun q hq => Nat.le_trans hpn hq⟩

/-- Witness for C5: the invariant and the success equation discharged on a
concrete arena; allocating 10 bytes at cursor 128 yields the aligned
pointer 112. -/
theorem C5_allocate_ok_witness :
    (⟨64, 8, 64, 128, 128⟩ : LeakyBumpAlloc).align ∣ 112 ∧
    (⟨64, 8, 64, 128, 128⟩ : LeakyBumpAlloc).start ≤ 112 ∧
    112 + 10 ≤ (⟨64, 8, 64, 128, 128⟩ : LeakyBumpAlloc).ptr ∧
    112 + 10 ≤ (⟨64, 8, 64, 128, 128⟩ : LeakyBumpAlloc).end_ ∧
    (⟨64, 8, 64, 128, 112⟩ : LeakyBumpAlloc).ptr = 112 ∧
    (∀ q, (⟨64, 8, 64, 128, 128⟩ : LeakyBumpAlloc).ptr ≤ q → 112 + 10 ≤ q) :=
  C5_allocate_ok ⟨64, 8, 64, 128, 128⟩ 10 112 ⟨64, 8, 64, 128, 112⟩
    (by decide) (by decide)

/-- Claim C10: every arena maintains `start ≤ ptr ≤ end`, established by
`new` and preserved by every successful `allocate`; consequently
`allocated() ≤ capacity()` always holds and `allocated()` never decreases
across a successful `allocate`. -/
theorem C10_arena_invariant :
    (∀ capacity alignment sysPtr a,
      LeakyBumpAlloc.new capacity alignment sysPtr = Except.ok a → a.Inv) ∧
    (∀ (a : LeakyBumpAlloc) (n p : Nat) (a2 : LeakyBumpAlloc), a.Inv →
      a.allocate n = Except.ok (p, a2) → a2.Inv) ∧
    (∀ a : LeakyBumpAlloc, a.Inv → a.allocated ≤ a.capacity) ∧
    (∀ (a : LeakyBumpAlloc) (n p : Nat) (a2 : LeakyBumpAlloc), a.Inv →
      a.allocate n = Except.ok (p, a2) → a.allocated ≤ a2.allocated) := by
  refine ⟨?_, ?_, ?_, ?_⟩
  · intro capacity alignment sysPtr a h
    unfold LeakyBumpAlloc.new at h
    split at h
    · exact absurd h (by simp)
    · rename_i hguard
      split at h
      · exact absurd h (by simp)
      · simp only [Except.ok.injEq] at h
        subst h
        have hpow : isPow2 alignment = true := by
          rcases not_or.mp hguard with ⟨h1, _⟩
          exact eq_true_of_ne_false h1
        exact ⟨hpow, rfl, Nat.le_add_right _ _, Nat.le_refl _⟩
  · intro a n p a2 hInv h
    obtain ⟨_, hstart, hpn, ha2⟩ := allocate_ok_facts hInv h
    have hend : a.ptr ≤ a.end_ := hInv.2.2.2
    subst ha2
    exact ⟨hInv.1, hInv.2.1, hstart, show p ≤ a.end_ by omega⟩
  · intro a hInv
    have h1 : a.end_ = a.start + a.size := hInv.2.1
    have h2 : a.start ≤ a.ptr := hInv.2.2.1
    unfold LeakyBumpAlloc.allocated LeakyBumpAlloc.capacity
    omega
  · intro a n p a2 hInv h
    obtain ⟨_, hstart, hpn, ha2⟩ := allocate_ok_facts hInv h
    subst ha2
    unfold LeakyBumpAlloc.allocated
    simp only []
    omega

/-- Witness for C10: the invariant established by a concrete `new`,
preserved and telemetry bounds checked on a concrete `allocate`. -/
theorem C10_arena_invariant_witness :
    LeakyBumpAlloc.Inv ⟨64, 8, 4096, 4160, 4160⟩ ∧
    LeakyBumpAlloc.Inv ⟨64, 8, 64, 128, 112⟩ ∧
    LeakyBumpAlloc.allocated ⟨64, 8, 64, 128, 128⟩
      ≤ LeakyBumpAlloc.capacity ⟨64, 8, 64, 128, 128⟩ ∧
    LeakyBumpAlloc.allocated ⟨64, 8, 64, 128, 128⟩
      ≤ LeakyBumpAlloc.allocated ⟨64, 8, 64, 128, 112⟩ :=
  ⟨C10_arena_invariant.1 64 8 4096 ⟨64, 8, 4096, 4160, 4160⟩ (by decide),
    C10_arena_invariant.2.1 ⟨64, 8, 64, 128, 128⟩ 10 112 ⟨64, 8, 64, 128, 112⟩
      (by decide) (by decide),
    C10_arena_invariant.2.2.1 ⟨64, 8, 64, 128, 128⟩ (by decide),
    C10_arena_invariant.2.2.2 ⟨64, 8, 64, 128, 128⟩ 10 112 ⟨64, 8, 64, 128, 112⟩
      (by decide) (by decide)⟩

/-- Claim C6: for every 64-bit hash `h`, `whichbin h` equals the top
`k = log2 NUM_BINS` bits of `h`, i.e. `(h >>> (64 - k)) &&& (NUM_BINS - 1)`,
and is always below `NUM_BINS`, so indexing the global shard array
`STRING_CACHE` is always in bounds. -/
theorem C6_whichbin (h : Nat) :
    whichbin h = (h >>> (64 - Nat.log2 NUM_BINS)) &&& (NUM_BINS - 1) ∧
    whichbin h < NUM_BINS := by
  have hlog : Nat.log2 NUM_BINS = 6 := by
    have h64 : NUM_BINS = 2 ^ 6 := rfl
    rw [h64, Nat.log2_two_pow]
  constructor
  · rw [hlog]
    show (h >>> 58) % 2 ^ 6 = (h >>> 58) &&& (2 ^ 6 - 1)
    exact (Nat.and_pow_two_sub_one_eq_mod (h >>> 58) 6).symm
  · exact Nat.mod_lt _ (by decide)

/-- Claim C7: handle ordering compares exactly the precomputed digests
(`a < b` iff `digest a < digest b`), it is total on digest values, and it is
not lexicographic on the string bytes: in a cache holding b and c, the
handle of c orders strictly below the handle of b although b precedes c
lexicographically. -/
theorem C7_ordering :
    (∀ (g : StringCache) (a b : Estr),
      (Estr.lt g a b ↔ Estr.digest g a < Estr.digest g b)) ∧
    (∀ (g : StringCache) (a b : Estr),
      Estr.lt g a b ∨ Estr.lt g b a ∨ Estr.digest g a = Estr.digest g b) ∧
    ((Estr.as_str (estr ("c") (estr ("b") emptyCache).2).2
        (estr ("b") emptyCache).1).data
      < (Estr.as_str (estr ("c") (estr ("b") emptyCache).2).2
          (estr ("c") (estr ("b") emptyCache).2).1).data ∧
      Estr.lt (estr ("c") (estr ("b") emptyCache).2).2
        (estr ("c") (estr ("b") emptyCache).2).1
        (estr ("b") emptyCache).1) := by
  refine ⟨?_, ?_, ?_, ?_⟩
  · intro g a b
    simp [Estr.lt, Estr.cmp, Nat.compare_eq_lt]
  · intro g a b
    rcases Nat.lt_trichotomy (Estr.digest g a) (Estr.digest g b) with hlt | heq | hgt
    · exact Or.inl (by simp [Estr.lt, Estr.cmp, Nat.compare_eq_lt, hlt])
    · exact Or.inr (Or.inr heq)
    · exact Or.inr (Or.inl (by simp [Estr.lt, Estr.cmp, Nat.compare_eq_lt, hgt]))
  · decide
  · show Estr.cmp _ _ _ = Ordering.lt
    decide

/-- Claim C8: `intern_if_present` (`Estr::from_existing` / `existing_estr`)
is side-effect-free: for every string, present or absent, the lookup leaves
the whole cache state — its published entries and its allocation frontier —
unchanged, performing no allocation. -/
theorem C8_existing_pure (x : String) (g : StringCache) :
    (existing_estr x g).2 = g ∧
    (existing_estr x g).2.entries = g.entries ∧
    (existing_estr x g).2.nextAddr = g.nextAddr :=
  ⟨rfl, rfl, rfl⟩

/-- Claim C9: `IdentityHasher::write` overwrites the stored hash with the
native-endian u64 of the input exactly when the slice is 8 bytes long; a
write of any other length leaves the state unchanged, so `finish` after only
non-8-byte writes returns the default value 0. -/
theorem C9_identity_hasher :
    (∀ (h : IdentityHasher) (bytes : List Nat), bytes.length = 8 →
      IdentityHasher.write h bytes = ⟨readU64 bytes⟩) ∧
    (∀ (h : IdentityHasher) (bytes : List Nat), bytes.length ≠ 8 →
      IdentityHasher.write h bytes = h) ∧
    (∀ writes : List (List Nat), (∀ b ∈ writes, b.length ≠ 8) →
      IdentityHasher.finish
        (writes.foldl IdentityHasher.write IdentityHasher.default) = 0) := by
  refine ⟨?_, ?_, ?_⟩
  · intro h bytes hlen
    simp [IdentityHasher.write, hlen]
  · intro h bytes hlen
    simp [IdentityHasher.write, hlen]
  · intro writes hall
    rw [foldl_write_of_no8 hall]
    rfl

/-- Witness for C9: the length hypotheses discharged on concrete byte
slices. -/
theorem C9_identity_hasher_witness :
    IdentityHasher.write ⟨5⟩ [1, 2, 3, 4, 5, 6, 7, 8]
      = ⟨readU64 [1, 2, 3, 4, 5, 6, 7, 8]⟩ ∧
    IdentityHasher.write ⟨5⟩ [1, 2, 3] = ⟨5⟩ ∧
    IdentityHasher.finish
      ([[1, 2, 3], [9]].foldl IdentityHasher.write IdentityHasher.default) = 0 :=
  ⟨C9_identity_hasher.1 ⟨5⟩ [1, 2, 3, 4, 5, 6, 7, 8] (by decide),
    C9_identity_hasher.2.1 ⟨5⟩ [1, 2, 3] (by decide),
    C9_identity_hasher.2.2 [[1, 2, 3], [9]] (by decide)⟩
